import Mathlib

set_option maxHeartbeats 1000000
set_option maxRecDepth 4000

/-!
Verification development for the password-generator vault core
(`src/storage/encryption.py`, `src/storage/password_storage.py`,
`src/storage/notes_storage.py`).

Modelling conventions:
* Python `bytes` are `List Nat` with every element below 256; Python `str`
  is Lean `String` at the record-field level and is converted to bytes by a
  real UTF-8 encoder.
* Library functions called by the source are modelled executably:
  base64 (RFC 4648, standard and urlsafe alphabets; the stdlib's silent
  discarding of non-alphabet bytes is not modelled, decoding is strict) and
  UTF-8 encoding/decoding (full validity: continuation ranges, overlongs,
  surrogates, max scalar value).
* The AEAD primitives (Fernet, AESGCM, ChaCha20Poly1305) are modelled as
  ideal authenticated ciphers: the ciphertext layout and lengths match the
  real libraries (Fernet token: version byte, 16-byte IV, body, 32-byte
  HMAC; AEAD: ciphertext plus 16-byte tag), the tag is a deterministic
  keyed checksum, and decryption verifies the tag and errors exactly when
  the token/tag is malformed.  Confidentiality is irrelevant to the claims
  proved here; round-trip, length and failure behaviour are what matter.
* Randomness drawn inside a call (`secrets.token_bytes`, the Fernet IV,
  `uuid.uuid4()`, `datetime.now()`) is passed in as an explicit argument.
* File I/O is modelled by carrying file contents in the state: the key
  file as raw bytes, the password storage file at the parsed-JSON level
  (a list of entry dictionaries, which is exactly what `json.dump` writes
  and `json.load` returns).
-/

namespace Vault

/-- ASCII bytes of a Lean string (used only for ASCII literals). -/
def asciiBytes (s : String) : List Nat := s.data.map Char.toNat

/-! ### base64 (models Python `base64.b64encode` / `b64decode` / `urlsafe_b64decode`) -/

/-- Encoding table of RFC 4648 base64 (standard alphabet). -/
def b64chr (n : Nat) : Nat :=
  if n < 26 then 65 + n
  else if n < 52 then 97 + (n - 26)
  else if n < 62 then 48 + (n - 52)
  else if n = 62 then 43
  else 47

/-- Decoding table; `url` selects the urlsafe alphabet (`-`/`_` for 62/63). -/
def b64idx (url : Bool) (c : Nat) : Option Nat :=
  if 65 ≤ c ∧ c ≤ 90 then some (c - 65)
  else if 97 ≤ c ∧ c ≤ 122 then some (26 + (c - 97))
  else if 48 ≤ c ∧ c ≤ 57 then some (52 + (c - 48))
  else if c = (if url then 45 else 43) then some 62
  else if c = (if url then 95 else 47) then some 63
  else none

/-- base64-encode a byte list (standard alphabet, `=` padding). -/
def b64encode : List Nat → List Nat
  | a :: b :: c :: rest =>
    b64chr (a / 4) :: b64chr (a % 4 * 16 + b / 16) :: b64chr (b % 16 * 4 + c / 64) ::
      b64chr (c % 64) :: b64encode rest
  | [a, b] => [b64chr (a / 4), b64chr (a % 4 * 16 + b / 16), b64chr (b % 16 * 4), 61]
  | [a] => [b64chr (a / 4), b64chr (a % 4 * 16), 61, 61]
  | [] => []

/-- Strict base64 decoding: groups of four alphabet characters, `=` padding
only at the end.  `none` models the `binascii.Error` raised by the stdlib. -/
def b64decodeP (url : Bool) : List Nat → Option (List Nat)
  | [] => some []
  | c1 :: c2 :: c3 :: c4 :: rest =>
    match b64idx url c1, b64idx url c2 with
    | some i1, some i2 =>
      if c3 = 61 then
        if c4 = 61 ∧ rest = [] then some [i1 * 4 + i2 / 16] else none
      else
        match b64idx url c3 with
        | some i3 =>
          if c4 = 61 then
            if rest = [] then some [i1 * 4 + i2 / 16, i2 % 16 * 16 + i3 / 4] else none
          else
            match b64idx url c4 with
            | some i4 =>
              (b64decodeP url rest).map
                (fun t => (i1 * 4 + i2 / 16) :: (i2 % 16 * 16 + i3 / 4) ::
                  (i3 % 4 * 64 + i4) :: t)
            | none => none
        | none => none
    | _, _ => none
  | _ => none

/-- `base64.b64decode` (standard alphabet). -/
def b64decode? : List Nat → Option (List Nat) := b64decodeP false

/-- `base64.urlsafe_b64decode`. -/
def b64decodeUrl? : List Nat → Option (List Nat) := b64decodeP true

/-! ### UTF-8 (models `str.encode()` / `bytes.decode()`) -/

/-- Valid Unicode scalar value (what a Python `str` element / Lean `Char` is). -/
def validCp (c : Nat) : Prop := c < 55296 ∨ (57343 < c ∧ c < 1114112)

instance (c : Nat) : Decidable (validCp c) := by unfold validCp; infer_instance

/-- UTF-8 encoding of one scalar value. -/
def utf8EncodeChar (c : Nat) : List Nat :=
  if c < 128 then [c]
  else if c < 2048 then [192 + c / 64, 128 + c % 64]
  else if c < 65536 then [224 + c / 4096, 128 + c / 64 % 64, 128 + c % 64]
  else [240 + c / 262144, 128 + c / 4096 % 64, 128 + c / 64 % 64, 128 + c % 64]

/-- UTF-8 encoding of a scalar-value list. -/
def utf8Encode : List Nat → List Nat
  | [] => []
  | c :: t => utf8EncodeChar c ++ utf8Encode t

/-- UTF-8 continuation byte test. -/
def isCont (b : Nat) : Bool := 128 ≤ b && b < 192

/-- Scalar value of a two-byte UTF-8 sequence. -/
def u8v2 (b b2 : Nat) : Nat := (b - 192) * 64 + (b2 - 128)

/-- Scalar value of a three-byte UTF-8 sequence. -/
def u8v3 (b b2 b3 : Nat) : Nat := (b - 224) * 4096 + (b2 - 128) * 64 + (b3 - 128)

/-- Scalar value of a four-byte UTF-8 sequence. -/
def u8v4 (b b2 b3 b4 : Nat) : Nat :=
  (b - 240) * 262144 + (b2 - 128) * 4096 + (b3 - 128) * 64 + (b4 - 128)

/-- Decode one UTF-8 sequence off the front of a byte list; rejects
overlong forms, surrogates and out-of-range values. -/
def utf8DecodeOne : List Nat → Option (Nat × List Nat)
  | [] => none
  | b :: t =>
    if b < 128 then some (b, t)
    else if b < 194 then none
    else if b < 224 then
      match t with
      | b2 :: t2 => if isCont b2 then some (u8v2 b b2, t2) else none
      | [] => none
    else if b < 240 then
      match t with
      | b2 :: b3 :: t3 =>
        if isCont b2 && isCont b3 then
          if u8v3 b b2 b3 < 2048 ∨ (55296 ≤ u8v3 b b2 b3 ∧ u8v3 b b2 b3 < 57344) then none
          else some (u8v3 b b2 b3, t3)
        else none
      | _ => none
    else if b < 245 then
      match t with
      | b2 :: b3 :: b4 :: t4 =>
        if isCont b2 && isCont b3 && isCont b4 then
          if u8v4 b b2 b3 b4 < 65536 ∨ 1114112 ≤ u8v4 b b2 b3 b4 then none
          else some (u8v4 b b2 b3 b4, t4)
        else none
      | _ => none
    else none

/-- Fuelled decoding loop (`utf8DecodeOne` consumes at least one byte per
step, so fuel equal to the input length always suffices). -/
def utf8DecodeLoop : Nat → List Nat → Option (List Nat)
  | _, [] => some []
  | 0, _ :: _ => none
  | fuel + 1, b :: t =>
    match utf8DecodeOne (b :: t) with
    | none => none
    | some r => (utf8DecodeLoop fuel r.2).map (fun cs => r.1 :: cs)

/-- Strict UTF-8 decoding to scalar values; `none` models
`UnicodeDecodeError`. -/
def utf8Decode? (l : List Nat) : Option (List Nat) := utf8DecodeLoop l.length l

/-- Scalar values of a Lean string (models iterating over a Python `str`). -/
def strCodes (s : String) : List Nat := s.data.map Char.toNat

/-- Build a string back from scalar values. -/
def codesToStr (l : List Nat) : String := ⟨l.map Char.ofNat⟩

/-- `str.encode()`: UTF-8 bytes of a string. -/
def strBytes (s : String) : List Nat := utf8Encode (strCodes s)

/-! ### Deterministic keyed checksum standing in for the library MAC/tag -/

/-- One mixing step of the model checksum. -/
def prfStep (a b : Nat) : Nat := (a * 131 + b + 17) % 256

/-- One derived byte of the model checksum. -/
def prfByte (seed : List Nat) (i : Nat) : Nat := seed.foldl prfStep (i % 256)

/-- `n` checksum bytes derived from a seed. -/
def macBytes (n : Nat) (seed : List Nat) : List Nat := (List.range n).map (prfByte seed)

/-! ### Cipher primitives (ideal models of Fernet / AESGCM / ChaCha20Poly1305) -/

/-- Failure of an authenticated decryption: `InvalidTag` for the AEADs,
`InvalidToken` for Fernet.  Both surface as "cannot decrypt". -/
inductive CryptoError
  | invalidTag
  | invalidToken
deriving DecidableEq

instance {e a : Type} [DecidableEq e] [DecidableEq a] : DecidableEq (Except e a) := fun x y =>
  match x, y with
  | .ok u, .ok v =>
    if h : u = v then .isTrue (congrArg Except.ok h)
    else .isFalse (fun hc => h (Except.ok.inj hc))
  | .error u, .error v =>
    if h : u = v then .isTrue (congrArg Except.error h)
    else .isFalse (fun hc => h (Except.error.inj hc))
  | .ok _, .error _ => .isFalse (fun hc => Except.noConfusion hc)
  | .error _, .ok _ => .isFalse (fun hc => Except.noConfusion hc)

/-- 16-byte tag of the model AEAD; `label` distinguishes AES-GCM from
ChaCha20-Poly1305 so the two ciphers are distinct functions. -/
def aeadTag (label : Nat) (key nonce pt : List Nat) : List Nat :=
  macBytes 16 (label :: key ++ nonce ++ pt)

/-- `AESGCM.encrypt` / `ChaCha20Poly1305.encrypt`: ciphertext plus 16-byte
tag over the plaintext with no associated data. -/
def aeadEncrypt (label : Nat) (key nonce pt : List Nat) : List Nat :=
  pt ++ aeadTag label key nonce pt

/-- `AESGCM.decrypt` / `ChaCha20Poly1305.decrypt`: verifies the trailing
16-byte tag; errors on truncation or tag mismatch. -/
def aeadDecrypt (label : Nat) (key nonce ct : List Nat) : Except CryptoError (List Nat) :=
  if ct.length < 16 then .error .invalidTag
  else
    if ct.drop (ct.length - 16) = aeadTag label key nonce (ct.take (ct.length - 16)) then
      .ok (ct.take (ct.length - 16))
    else .error .invalidTag

/-- 32-byte HMAC of the model Fernet token. -/
def fernetMac (key iv pt : List Nat) : List Nat := macBytes 32 (0 :: key ++ iv ++ pt)

/-- `Fernet.encrypt`: version byte 0x80, 16-byte IV, body, 32-byte HMAC. -/
def fernetToken (key iv pt : List Nat) : List Nat := 128 :: iv ++ pt ++ fernetMac key iv pt

/-- `Fernet.decrypt`: checks the version byte and the HMAC. -/
def fernetDecrypt (key : List Nat) : List Nat → Except CryptoError (List Nat)
  | [] => .error .invalidToken
  | b :: rest =>
    if b = 128 then
      if rest.length < 48 then .error .invalidToken
      else
        if (rest.drop 16).drop ((rest.drop 16).length - 32) =
            fernetMac key (rest.take 16) ((rest.drop 16).take ((rest.drop 16).length - 32)) then
          .ok ((rest.drop 16).take ((rest.drop 16).length - 32))
        else .error .invalidToken
    else .error .invalidToken

/-! ### EncryptionManager (`src/storage/encryption.py`) -/

/-- State of an `EncryptionManager`: the settings algorithm string and the
key material backing `self.cipher`.  `self.salt` / `self.nonce` are never
read by `encrypt` / `decrypt` (a fresh nonce is drawn per call) and are
omitted. -/
structure EncryptionManager where
  encryption_algorithm : String
  key : List Nat
deriving DecidableEq

/-- The cipher primitives as a bundle, so that theorems can quantify over
them and show a code path never invokes the underlying cipher. -/
structure CipherPrim where
  fEnc : List Nat → List Nat → List Nat → List Nat
  fDec : List Nat → List Nat → Except CryptoError (List Nat)
  aEnc : Nat → List Nat → List Nat → List Nat → List Nat
  aDec : Nat → List Nat → List Nat → List Nat → Except CryptoError (List Nat)

/-- The primitives of this development. -/
def realPrim : CipherPrim :=
  { fEnc := fernetToken, fDec := fernetDecrypt, aEnc := aeadEncrypt, aDec := aeadDecrypt }

/-- `EncryptionManager.encrypt`, generic in the primitives.  `rnd` is the
fresh randomness drawn inside the call (`secrets.token_bytes(12)` for the
nonce-based algorithms, the Fernet IV otherwise). -/
def encryptWith (P : CipherPrim) (m : EncryptionManager) (rnd data : List Nat) : List Nat :=
  if data = [] then []
  else if m.encryption_algorithm = "fernet" then P.fEnc m.key rnd data
  else if m.encryption_algorithm = "aes-gcm" then rnd ++ P.aEnc 0 m.key rnd data
  else if m.encryption_algorithm = "chacha20" then rnd ++ P.aEnc 1 m.key rnd data
  else P.fEnc m.key rnd data

/-- `EncryptionManager.decrypt`, generic in the primitives: empty shortcut,
then per-algorithm dispatch; the nonce-based algorithms split the first 12
bytes off as the nonce. -/
def decryptWith (P : CipherPrim) (m : EncryptionManager) (d : List Nat) :
    Except CryptoError (List Nat) :=
  if d = [] then .ok []
  else if m.encryption_algorithm = "fernet" then P.fDec m.key d
  else if m.encryption_algorithm = "aes-gcm" then P.aDec 0 m.key (d.take 12) (d.drop 12)
  else if m.encryption_algorithm = "chacha20" then P.aDec 1 m.key (d.take 12) (d.drop 12)
  else P.fDec m.key d

/-- `EncryptionManager.encrypt` (lines 195-223 of encryption.py). -/
def EncryptionManager.encrypt (m : EncryptionManager) (rnd data : List Nat) : List Nat :=
  encryptWith realPrim m rnd data

/-- `EncryptionManager.decrypt` (lines 225-255 of encryption.py). -/
def EncryptionManager.decrypt (m : EncryptionManager) (d : List Nat) :
    Except CryptoError (List Nat) :=
  decryptWith realPrim m d

/-! ### Password records (`src/storage/password_storage.py`) -/

/-- A `Password` object.  The constructor coalesces falsy `id` / `created` /
`modified` to fresh values, so objects held by the storage always have
those fields nonempty. -/
structure Password where
  id : String
  value : String
  website : String
  username : String
  category : String
  notes : String
  created : String
  modified : String
deriving DecidableEq

/-- A password entry dictionary as stored in / read from `passwords.json`
(fields may be absent in imported data). -/
structure PwDict where
  id : Option String
  value : Option String
  website : Option String
  username : Option String
  category : Option String
  notes : Option String
  created : Option String
  modified : Option String
deriving DecidableEq

/-- `Password.to_dict`. -/
def Password.toDict (p : Password) : PwDict :=
  { id := some p.id
    value := some p.value
    website := some p.website
    username := some p.username
    category := some p.category
    notes := some p.notes
    created := some p.created
    modified := some p.modified }

/-- Python truthiness coalescing `x if x else fresh` on an optional string. -/
def orFresh (o : Option String) (fresh : String) : String :=
  match o with
  | some s => if s = "" then fresh else s
  | none => fresh

/-- `Password.from_dict` composed with the `Password` constructor.
`freshId` models `str(uuid.uuid4())`, `now` models
`datetime.now().isoformat()`. -/
def Password.fromDict (freshId now : String) (d : PwDict) : Password :=
  { id := orFresh d.id freshId
    value := d.value.getD ""
    website := d.website.getD ""
    username := d.username.getD ""
    category := d.category.getD "General"
    notes := d.notes.getD ""
    created := orFresh d.created now
    modified := orFresh d.modified now }

/-- State of a `PasswordStorage`: settings algorithm, key material backing
`self.cipher`, the key file bytes, the in-memory password list and the
storage file (at the parsed-JSON level: the entry list `json.dump` wrote). -/
structure PasswordStorage where
  encryption_algorithm : String
  key : List Nat
  key_file : Option (List Nat)
  passwords : List Password
  storage_file : Option (List PwDict)
deriving DecidableEq

/-- The (algorithm, key) pair a storage encrypts and decrypts with. -/
def PasswordStorage.manager (st : PasswordStorage) : EncryptionManager :=
  ⟨st.encryption_algorithm, st.key⟩

/-- `PasswordStorage._encrypt` (lines 308-341): UTF-8 encode, dispatch on
the algorithm string (nonce-based algorithms prepend a fresh 12-byte
nonce), base64-encode the result back to a string.  Empty in, empty out. -/
def PasswordStorage.encryptValue (m : EncryptionManager) (rnd : List Nat) (data : String) :
    String :=
  if data = "" then ""
  else
    codesToStr (b64encode (
      if m.encryption_algorithm = "fernet" then fernetToken m.key rnd (strBytes data)
      else if m.encryption_algorithm = "aes-gcm" then
        rnd ++ aeadEncrypt 0 m.key rnd (strBytes data)
      else if m.encryption_algorithm = "chacha20" then
        rnd ++ aeadEncrypt 1 m.key rnd (strBytes data)
      else fernetToken m.key rnd (strBytes data)))

/-- The per-algorithm dispatch inside `PasswordStorage._decrypt`. -/
def fieldDecryptCore (m : EncryptionManager) (eb : List Nat) : Except CryptoError (List Nat) :=
  if m.encryption_algorithm = "fernet" then fernetDecrypt m.key eb
  else if m.encryption_algorithm = "aes-gcm" then aeadDecrypt 0 m.key (eb.take 12) (eb.drop 12)
  else if m.encryption_algorithm = "chacha20" then aeadDecrypt 1 m.key (eb.take 12) (eb.drop 12)
  else fernetDecrypt m.key eb

/-- `PasswordStorage._decrypt` (lines 343-381): base64-decode, dispatch,
UTF-8 decode; the surrounding `try` turns every failure into the literal
placeholder string, so the function is total and never raises. -/
def PasswordStorage.decryptValue (m : EncryptionManager) (s : String) : String :=
  if s = "" then ""
  else
    match b64decode? (strCodes s) with
    | none => "[Error: Could not decrypt]"
    | some eb =>
      match fieldDecryptCore m eb with
      | .error _ => "[Error: Could not decrypt]"
      | .ok db =>
        match utf8Decode? db with
        | none => "[Error: Could not decrypt]"
        | some cs => codesToStr cs

/-- True iff `_decrypt` would hit its exception handler on this nonempty
input (base64 failure, authentication failure, or UTF-8 failure). -/
def valueDecFails (m : EncryptionManager) (s : String) : Bool :=
  match b64decode? (strCodes s) with
  | none => true
  | some eb =>
    match fieldDecryptCore m eb with
    | .error _ => true
    | .ok db => (utf8Decode? db).isNone

/-- `PasswordStorage._save_passwords` (lines 482-497): the entry list
written to the storage file, each value encrypted; `rnds k` is the fresh
nonce/IV drawn while encrypting the k-th entry. -/
def savePasswordsList (m : EncryptionManager) (rnds : Nat → List Nat) :
    Nat → List Password → List PwDict
  | _, [] => []
  | k, p :: t =>
    { p.toDict with value := some (PasswordStorage.encryptValue m (rnds k) p.value) } ::
      savePasswordsList m rnds (k + 1) t

/-- One loop iteration of `PasswordStorage._load_passwords`: decrypt the
value field if present, then `Password.from_dict`. -/
def loadEntry (m : EncryptionManager) (freshId now : String) (d : PwDict) : Password :=
  Password.fromDict freshId now { d with value := d.value.map (PasswordStorage.decryptValue m) }

/-- The entry loop of `PasswordStorage._load_passwords` (lines 460-480):
each entry is converted independently; a value that fails to decrypt only
affects its own entry. -/
def loadPasswordsList (m : EncryptionManager) (fids : Nat → String) (now : String) :
    Nat → List PwDict → List Password
  | _, [] => []
  | k, d :: t => loadEntry m (fids k) now d :: loadPasswordsList m fids now (k + 1) t

/-- `PasswordStorage._load_passwords`: absent storage file leaves the
in-memory list untouched. -/
def PasswordStorage.load_passwords (st : PasswordStorage) (fids : Nat → String) (now : String) :
    List Password :=
  match st.storage_file with
  | none => st.passwords
  | some ds => loadPasswordsList st.manager fids now 0 ds

/-- `PasswordStorage.add_password` (lines 559-567): append and save. -/
def PasswordStorage.add_password (st : PasswordStorage) (p : Password) (rnds : Nat → List Nat) :
    PasswordStorage :=
  { st with
    passwords := st.passwords ++ [p]
    storage_file := some (savePasswordsList st.manager rnds 0 (st.passwords ++ [p])) }

/-- `PasswordStorage.rotate_encryption_key` (lines 429-458): take the
in-memory list (`get_all_passwords` returns `self.passwords` and performs
no decryption), generate a new key for the same algorithm, write the key
file, re-encrypt and rewrite the storage file.  An algorithm outside the
supported set crashes in the source (`key` is never bound); that is
modelled as `none`. -/
structure GenMaterial where
  fernetKey : List Nat
  key32 : List Nat
  salt16 : List Nat
  nonce12 : List Nat
deriving DecidableEq

/-- serialisation of `_save_key_material` (lines 282-306): `json.dumps` of
key, algorithm and the optional (truthy) salt and nonce, base64-encoded. -/
def encodeKeyMaterial (alg : String) (key salt nonce : List Nat) : List Nat :=
  asciiBytes "\x7b\"key\": \"" ++ b64encode key ++
    asciiBytes "\", \"algorithm\": \"" ++ asciiBytes alg ++
    (if salt = [] then [] else asciiBytes "\", \"salt\": \"" ++ b64encode salt) ++
    (if nonce = [] then [] else asciiBytes "\", \"nonce\": \"" ++ b64encode nonce) ++
    asciiBytes "\"\x7d"

def PasswordStorage.rotate_encryption_key (st : PasswordStorage) (g : GenMaterial)
    (rnds : Nat → List Nat) : Option PasswordStorage :=
  if st.encryption_algorithm = "fernet" then
    some { st with
      key := g.fernetKey
      key_file := some g.fernetKey
      storage_file := some (savePasswordsList ⟨st.encryption_algorithm, g.fernetKey⟩ rnds 0
        st.passwords) }
  else if st.encryption_algorithm = "aes-gcm" ∨ st.encryption_algorithm = "chacha20" then
    some { st with
      key := g.key32
      key_file := some (encodeKeyMaterial st.encryption_algorithm g.key32 g.salt16 g.nonce12)
      storage_file := some (savePasswordsList ⟨st.encryption_algorithm, g.key32⟩ rnds 0
        st.passwords) }
  else none

/-- First-match replacement of `PasswordStorage.update_password`
(lines 569-588): the replacement is forced to keep the matched entry's id
and created timestamp and gets a fresh modified timestamp. -/
def updateFirst (idv : String) (up : Password) (now : String) :
    List Password → Option (List Password)
  | [] => none
  | p :: t =>
    if p.id = idv then
      some ({ up with id := idv, created := p.created, modified := now } :: t)
    else (updateFirst idv up now t).map (fun l => p :: l)

/-- `PasswordStorage.update_password`: on a match, replace and save; on no
match, return `False` and leave everything unchanged. -/
def PasswordStorage.update_password (st : PasswordStorage) (idv : String) (up : Password)
    (now : String) (rnds : Nat → List Nat) : PasswordStorage × Bool :=
  match updateFirst idv up now st.passwords with
  | some l =>
    ({ st with
       passwords := l
       storage_file := some (savePasswordsList st.manager rnds 0 l) }, true)
  | none => (st, false)

/-- `PasswordStorage.export_passwords` (lines 625-653): the entry list
written to the export file; with `include_values = false` every value is
replaced by the literal redaction marker. -/
def PasswordStorage.export_passwords (ps : List Password) (includeValues : Bool) :
    List PwDict :=
  ps.map (fun p =>
    if includeValues then p.toDict else { p.toDict with value := some "[REDACTED]" })

/-- The records a run of `import_passwords` adds, starting at uuid/count
index `k`: redacted entries are skipped, the rest get a fresh id and fresh
timestamps. -/
def importedRecords (fids : Nat → String) (now : String) : Nat → List PwDict → List Password
  | _, [] => []
  | k, d :: t =>
    if d.value = some "[REDACTED]" then importedRecords fids now k t
    else
      Password.fromDict (fids k) now
          { d with id := some (fids k), created := some now, modified := some now } ::
        importedRecords fids now (k + 1) t

/-- Loop of `PasswordStorage.import_passwords` (lines 655-691); `k` is both
the count of imported entries so far and the index of the next fresh uuid. -/
def importAux (fids : Nat → String) (now : String) (rnds : Nat → List Nat) :
    PasswordStorage → Nat → List PwDict → PasswordStorage × Nat
  | st, k, [] => (st, k)
  | st, k, d :: t =>
    if d.value = some "[REDACTED]" then importAux fids now rnds st k t
    else
      importAux fids now rnds
        (st.add_password
          (Password.fromDict (fids k) now
            { d with id := some (fids k), created := some now, modified := some now })
          rnds)
        (k + 1) t

/-- `PasswordStorage.import_passwords`: returns the updated storage and the
number of imported (non-skipped) entries. -/
def PasswordStorage.import_passwords (st : PasswordStorage) (data : List PwDict)
    (fids : Nat → String) (now : String) (rnds : Nat → List Nat) : PasswordStorage × Nat :=
  importAux fids now rnds st 0 data

/-! ### Secure notes (`src/storage/notes_storage.py`) -/

/-- A note dictionary as found in the decrypted notes JSON. -/
structure NoteDict where
  id : Option String
  title : Option String
  content : Option String
  category : Option String
  created : Option Nat
  updated : Option Nat
deriving DecidableEq

/-- A `Note` dataclass instance. -/
structure Note where
  id : Option String
  title : String
  content : String
  category : String
  created : Nat
  updated : Nat
deriving DecidableEq

/-- The `Note(...)` construction inside `_load_notes`, with `.get` defaults. -/
def mkNote (now : Nat) (nd : NoteDict) : Note :=
  { id := nd.id
    title := nd.title.getD ""
    content := nd.content.getD ""
    category := nd.category.getD ""
    created := nd.created.getD now
    updated := nd.updated.getD now }

/-- `NotesStorage._load_notes` (lines 44-81): read the whole encrypted
blob, decrypt it with the `EncryptionManager`, JSON-parse, build the note
collection.  The surrounding `try` catches any failure and returns the
notes accumulated so far — nothing, since decryption happens before any
note is added — so a decrypt failure yields the empty collection.  The
JSON parse of the decrypted bytes is irrelevant to the claims and is a
parameter. -/
def NotesStorage.load_notes (parse : List Nat → Option (List NoteDict))
    (m : EncryptionManager) (file : Option (List Nat)) (now : Nat) : List Note :=
  match file with
  | none => []
  | some enc =>
    if enc = [] then []
    else
      match m.decrypt enc with
      | .error _ => []
      | .ok data =>
        match parse data with
        | none => []
        | some nds => nds.map (mkNote now)

/-! ### Key-file loading (`_initialize_encryption`, identical in
encryption.py lines 67-154 and password_storage.py lines 172-267) -/

/-- The cipher object `_initialize_encryption` returns. -/
inductive Cipher
  | fernet (key : List Nat)
  | aesgcm (key : List Nat)
  | chacha (key : List Nat)
deriving DecidableEq

/-- Fields extracted from a structured (JSON) key file. -/
structure KeyData where
  key : List Nat
  algorithm : Option (List Nat)
  salt : Option (List Nat)
  nonce : Option (List Nat)
deriving DecidableEq

/-- Outcome of the inner parse of the key file content:
`jsonError` is `json.JSONDecodeError` (reaching the legacy-raw-key branch),
`otherError` is any other exception (`UnicodeDecodeError`, `KeyError`,
`binascii.Error`), caught only by the outer handler. -/
inductive KeyParse
  | ok (kd : KeyData)
  | jsonError
  | otherError
deriving DecidableEq

/-- JSON whitespace. -/
def isJWs (b : Nat) : Bool := b = 32 || b = 9 || b = 10 || b = 13

def skipJWs (l : List Nat) : List Nat := l.dropWhile isJWs

/-- Parse a JSON string body after its opening quote (escape sequences are
not used by the key files the source writes and are rejected). -/
def parseJString : List Nat → Option (List Nat × List Nat)
  | [] => none
  | b :: t =>
    if b = 34 then some ([], t)
    else if b = 92 ∨ b < 32 then none
    else (parseJString t).map (fun r => (b :: r.1, r.2))

/-- Parse the members of a flat JSON object of string keys and string
values, returning them with the input remaining after the closing brace. -/
def parseMembers : Nat → List Nat → Option (List (List Nat × List Nat) × List Nat)
  | 0, _ => none
  | fuel + 1, l =>
    match skipJWs l with
    | 34 :: t =>
      match parseJString t with
      | none => none
      | some (k, r1) =>
        match skipJWs r1 with
        | 58 :: r2 =>
          match skipJWs r2 with
          | 34 :: r3 =>
            match parseJString r3 with
            | none => none
            | some (v, r4) =>
              match skipJWs r4 with
              | 44 :: r5 => (parseMembers fuel r5).map (fun r => ((k, v) :: r.1, r.2))
              | 125 :: r5 => some ([(k, v)], r5)
              | _ => none
          | _ => none
        | _ => none
    | _ => none

/-- `json.loads` restricted to the flat string-to-string objects
`_save_key_material` writes. -/
def parseFlatJson (content : List Nat) : Option (List (List Nat × List Nat)) :=
  match skipJWs content with
  | 123 :: t =>
    match skipJWs t with
    | 125 :: r => if skipJWs r = [] then some [] else none
    | u =>
      match parseMembers (u.length + 1) u with
      | some (ps, r) => if skipJWs r = [] then some ps else none
      | none => none
  | _ => none

/-- Dictionary lookup (duplicate keys: last wins, as in Python). -/
def jLookup (k : List Nat) (ps : List (List Nat × List Nat)) : Option (List Nat) :=
  ps.foldl (fun acc kv => if kv.1 = k then some kv.2 else acc) none

/-- The inner parse of `_initialize_encryption` (lines 193-202 of
password_storage.py): UTF-8 decode, `json.loads`, base64-decode the `key`
field and the optional `salt` / `nonce` fields. -/
def parseKeyFile (content : List Nat) : KeyParse :=
  match utf8Decode? content with
  | none => .otherError
  | some _ =>
    match parseFlatJson content with
    | none => .jsonError
    | some ps =>
      match jLookup (asciiBytes "key") ps with
      | none => .otherError
      | some kb64 =>
        match b64decode? kb64 with
        | none => .otherError
        | some keyBytes =>
          match jLookup (asciiBytes "salt") ps with
          | some sv =>
            match b64decode? sv with
            | none => .otherError
            | some saltBytes =>
              match jLookup (asciiBytes "nonce") ps with
              | some nv =>
                match b64decode? nv with
                | none => .otherError
                | some nonceBytes =>
                  .ok ⟨keyBytes, jLookup (asciiBytes "algorithm") ps,
                    some saltBytes, some nonceBytes⟩
              | none => .ok ⟨keyBytes, jLookup (asciiBytes "algorithm") ps, some saltBytes, none⟩
          | none =>
            match jLookup (asciiBytes "nonce") ps with
            | some nv =>
              match b64decode? nv with
              | none => .otherError
              | some nonceBytes =>
                .ok ⟨keyBytes, jLookup (asciiBytes "algorithm") ps, none, some nonceBytes⟩
            | none => .ok ⟨keyBytes, jLookup (asciiBytes "algorithm") ps, none, none⟩

/-- Whether `Fernet(content)` succeeds: the content must be urlsafe base64
decoding to exactly 32 bytes (the constructor's check). -/
def fernetKeyOk (content : List Nat) : Bool :=
  match b64decodeUrl? content with
  | some k => k.length = 32
  | none => false

/-- Result of `_initialize_encryption`: the cipher (if any — the source
falls through or raises on an unsupported algorithm) and the key file
content written, if a generate path ran. -/
structure InitResult where
  cipher : Option Cipher
  wroteKeyFile : Option (List Nat)
deriving DecidableEq

/-- The generate-new-key paths (no key file, or outer exception handler):
fernet writes the raw generated key, the AEADs write structured JSON with
fresh 32-byte key, 16-byte salt and 12-byte nonce; an unsupported
algorithm raises (`key` unbound) — no cipher, nothing written. -/
def generateNewKey (alg : String) (g : GenMaterial) : InitResult :=
  if alg = "fernet" then ⟨some (.fernet g.fernetKey), some g.fernetKey⟩
  else if alg = "aes-gcm" then
    ⟨some (.aesgcm g.key32), some (encodeKeyMaterial alg g.key32 g.salt16 g.nonce12)⟩
  else if alg = "chacha20" then
    ⟨some (.chacha g.key32), some (encodeKeyMaterial alg g.key32 g.salt16 g.nonce12)⟩
  else ⟨none, none⟩

/-- `_initialize_encryption` (password_storage.py lines 187-267, identical
in encryption.py): dispatch is on the settings algorithm `settingsAlg`
throughout — the parsed file's `algorithm` field is never consulted.  With
fernet settings and a structured file, `Fernet(file_content)` is applied
to the whole file content and its constructor failure falls to the outer
generate handler; the AEAD constructors validate the key length.  A parse
failure other than `JSONDecodeError` also falls to the outer handler. -/
def initialize_encryption (settingsAlg : String) (keyFile : Option (List Nat))
    (g : GenMaterial) : InitResult :=
  match keyFile with
  | none => generateNewKey settingsAlg g
  | some content =>
    match parseKeyFile content with
    | .ok kd =>
      if settingsAlg = "fernet" then
        if fernetKeyOk content then ⟨some (.fernet content), none⟩
        else generateNewKey settingsAlg g
      else if settingsAlg = "aes-gcm" then
        if kd.key.length = 16 ∨ kd.key.length = 24 ∨ kd.key.length = 32 then
          ⟨some (.aesgcm kd.key), none⟩
        else generateNewKey settingsAlg g
      else if settingsAlg = "chacha20" then
        if kd.key.length = 32 then ⟨some (.chacha kd.key), none⟩
        else generateNewKey settingsAlg g
      else ⟨some (.fernet g.fernetKey), none⟩
    | .jsonError =>
      if fernetKeyOk content then ⟨some (.fernet content), none⟩
      else generateNewKey settingsAlg g
    | .otherError => generateNewKey settingsAlg g

/-! ### Concrete sample data for closed evaluations -/

/-- Sample fresh key material. -/
def sampleG : GenMaterial :=
  ⟨asciiBytes "NEWKEY", List.replicate 32 7, List.replicate 16 8, List.replicate 12 9⟩

/-- A structured key file whose embedded algorithm field says `aes-gcm`
(key: 32 bytes of 0x41). -/
def aesKeyFileJson : List Nat :=
  asciiBytes
    "\x7b\"key\": \"QUFBQUFBQUFBQUFBQUFBQUFBQUFBQUFBQUFBQUFBQUE=\", \"algorithm\": \"aes-gcm\"\x7d"

/-- A legacy raw Fernet key: 43 alphabet characters plus padding, urlsafe
base64 of 32 bytes, and not valid JSON. -/
def legacyRawKey : List Nat := asciiBytes "AAAAAAAAAAAAAAAAAAAAAAAAAAAAAAAAAAAAAAAAAAA="

/-- A stored entry whose encrypted value (`"AAAA"`) is well-formed base64
but fails authenticated decryption under every Fernet key. -/
def badValueEntry : PwDict :=
  ⟨some "p1", some "AAAA", some "example.com", some "alice", some "General", some "",
    some "2024-01-01T00:00:00", some "2024-01-01T00:00:00"⟩

/-- A storage constructed over a file containing `badValueEntry`: loading
replaced the undecryptable value with the error placeholder. -/
def badValueStorage : PasswordStorage :=
  { encryption_algorithm := "fernet"
    key := asciiBytes "k0"
    key_file := some (asciiBytes "k0")
    passwords :=
      loadPasswordsList ⟨"fernet", asciiBytes "k0"⟩ (fun _ => "uuid-0") "2024-02-02T00:00:00" 0
        [badValueEntry]
    storage_file := some [badValueEntry] }

/-- Fixed per-entry randomness for concrete evaluations. -/
def sampleRnds : Nat → List Nat := fun _ => List.replicate 16 1

/-- The storage after rotating `badValueStorage`. -/
def badValueRotated : PasswordStorage :=
  (badValueStorage.rotate_encryption_key sampleG sampleRnds).getD badValueStorage

/-- A sample well-formed password entry. -/
def samplePassword : Password :=
  ⟨"id1", "pw", "example.com", "alice", "General", "", "2024-01-01T00:00:00",
    "2024-01-05T00:00:00"⟩

/-- A sample storage holding `samplePassword` under a Fernet key. -/
def sampleStorage : PasswordStorage :=
  { encryption_algorithm := "fernet"
    key := asciiBytes "k0"
    key_file := some (asciiBytes "k0")
    passwords := [samplePassword]
    storage_file := none }

/-! ## Helper lemmas: base64 -/

theorem b64chr_lt128 (n : Nat) : b64chr n < 128 := by
  unfold b64chr; split_ifs <;> omega

theorem b64chr_ne61 (n : Nat) : b64chr n ≠ 61 := by
  unfold b64chr; split_ifs <;> omega

theorem b64idx_std_b64chr (n : Nat) (h : n < 64) : b64idx false (b64chr n) = some n := by
  unfold b64chr b64idx
  split_ifs <;> simp_all <;> omega

theorem b64_roundtrip : ∀ (l : List Nat), (∀ b ∈ l, b < 256) → b64decode? (b64encode l) = some l
  | [] => fun _ => rfl
  | [a] => fun h => by
    have ha : a < 256 := h a (by simp)
    have h1 : a / 4 < 64 := by omega
    have h2 : a % 4 * 16 < 64 := by omega
    simp only [b64encode, b64decode?, b64decodeP, b64idx_std_b64chr _ h1,
      b64idx_std_b64chr _ h2]
    simp only [if_true, and_self, Option.some.injEq, List.cons.injEq, and_true]
    omega
  | [a, b] => fun h => by
    have ha : a < 256 := h a (by simp)
    have hb : b < 256 := h b (by simp)
    have h1 : a / 4 < 64 := by omega
    have h2 : a % 4 * 16 + b / 16 < 64 := by omega
    have h3 : b % 16 * 4 < 64 := by omega
    simp only [b64encode, b64decode?, b64decodeP, b64idx_std_b64chr _ h1,
      b64idx_std_b64chr _ h2, b64idx_std_b64chr _ h3]
    rw [if_neg (b64chr_ne61 _)]
    simp only [if_true, and_self, Option.some.injEq, List.cons.injEq, and_true]
    constructor <;> omega
  | a :: b :: c :: rest => fun h => by
    have ha : a < 256 := h a (by simp)
    have hb : b < 256 := h b (by simp)
    have hc : c < 256 := h c (by simp)
    have ih := b64_roundtrip rest (fun x hx => h x (by simp [hx]))
    have h1 : a / 4 < 64 := by omega
    have h2 : a % 4 * 16 + b / 16 < 64 := by omega
    have h3 : b % 16 * 4 + c / 64 < 64 := by omega
    have h4 : c % 64 < 64 := by omega
    simp only [b64decode?] at ih
    simp only [b64encode, b64decode?, b64decodeP, b64idx_std_b64chr _ h1,
      b64idx_std_b64chr _ h2, b64idx_std_b64chr _ h3, b64idx_std_b64chr _ h4]
    rw [if_neg (b64chr_ne61 _), if_neg (b64chr_ne61 _), ih]
    simp only [Option.map_some', Option.some.injEq, List.cons.injEq, and_true]
    refine ⟨by omega, by omega, by omega⟩

theorem b64encode_lt128 : ∀ (l : List Nat), ∀ x ∈ b64encode l, x < 128
  | [] => by simp [b64encode]
  | [a] => by
    simp only [b64encode, List.mem_cons, List.mem_singleton]
    intro x hx
    rcases hx with rfl | rfl | rfl | h
    · exact b64chr_lt128 _
    · exact b64chr_lt128 _
    · omega
    · simp at h; omega
  | [a, b] => by
    simp only [b64encode, List.mem_cons, List.mem_singleton]
    intro x hx
    rcases hx with rfl | rfl | rfl | h
    · exact b64chr_lt128 _
    · exact b64chr_lt128 _
    · exact b64chr_lt128 _
    · simp at h; omega
  | a :: b :: c :: rest => by
    simp only [b64encode, List.mem_cons]
    intro x hx
    rcases hx with rfl | rfl | rfl | rfl | h
    · exact b64chr_lt128 _
    · exact b64chr_lt128 _
    · exact b64chr_lt128 _
    · exact b64chr_lt128 _
    · exact b64encode_lt128 rest x h

theorem b64encode_ne_nil : ∀ (l : List Nat), l ≠ [] → b64encode l ≠ []
  | [], h => absurd rfl h
  | [_], _ => by simp [b64encode]
  | [_, _], _ => by simp [b64encode]
  | _ :: _ :: _ :: _, _ => by simp [b64encode]

/-! ## Helper lemmas: UTF-8 -/

theorem utf8DecodeOne_encodeChar (c : Nat) (hv : validCp c) (t : List Nat) :
    utf8DecodeOne (utf8EncodeChar c ++ t) = some (c, t) := by
  unfold validCp at hv
  by_cases h1 : c < 128
  · simp only [utf8EncodeChar, if_pos h1, List.cons_append, List.nil_append, utf8DecodeOne,
      if_pos h1]
  · by_cases h2 : c < 2048
    · simp only [utf8EncodeChar, if_neg h1, if_pos h2, List.cons_append, List.nil_append]
      have hb1 : ¬(192 + c / 64 < 128) := by omega
      have hb2 : ¬(192 + c / 64 < 194) := by omega
      have hb3 : 192 + c / 64 < 224 := by omega
      have hcont : isCont (128 + c % 64) = true := by
        simp only [isCont, Bool.and_eq_true, decide_eq_true_eq]; omega
      have hval : u8v2 (192 + c / 64) (128 + c % 64) = c := by unfold u8v2; omega
      simp only [utf8DecodeOne, if_neg hb1, if_neg hb2, if_pos hb3]
      rw [if_pos hcont, hval]
    · by_cases h3 : c < 65536
      · simp only [utf8EncodeChar, if_neg h1, if_neg h2, if_pos h3, List.cons_append,
          List.nil_append]
        have hb1 : ¬(224 + c / 4096 < 128) := by omega
        have hb2 : ¬(224 + c / 4096 < 194) := by omega
        have hb3 : ¬(224 + c / 4096 < 224) := by omega
        have hb4 : 224 + c / 4096 < 240 := by omega
        have hcont : (isCont (128 + c / 64 % 64) && isCont (128 + c % 64)) = true := by
          simp only [isCont, Bool.and_eq_true, decide_eq_true_eq]; omega
        have hval : u8v3 (224 + c / 4096) (128 + c / 64 % 64) (128 + c % 64) = c := by
          unfold u8v3; omega
        simp only [utf8DecodeOne, if_neg hb1, if_neg hb2, if_neg hb3, if_pos hb4]
        rw [if_pos hcont, hval, if_neg (by omega)]
      · simp only [utf8EncodeChar, if_neg h1, if_neg h2, if_neg h3, List.cons_append,
          List.nil_append]
        have hhi : c < 1114112 := by omega
        have hb1 : ¬(240 + c / 262144 < 128) := by omega
        have hb2 : ¬(240 + c / 262144 < 194) := by omega
        have hb3 : ¬(240 + c / 262144 < 224) := by omega
        have hb4 : ¬(240 + c / 262144 < 240) := by omega
        have hb5 : 240 + c / 262144 < 245 := by omega
        have hcont : (isCont (128 + c / 4096 % 64) && isCont (128 + c / 64 % 64) &&
            isCont (128 + c % 64)) = true := by
          simp only [isCont, Bool.and_eq_true, decide_eq_true_eq]; omega
        have hval : u8v4 (240 + c / 262144) (128 + c / 4096 % 64) (128 + c / 64 % 64)
            (128 + c % 64) = c := by unfold u8v4; omega
        simp only [utf8DecodeOne, if_neg hb1, if_neg hb2, if_neg hb3, if_neg hb4, if_pos hb5]
        rw [if_pos hcont, hval, if_neg (by omega)]

theorem utf8EncodeChar_ne_nil (c : Nat) : utf8EncodeChar c ≠ [] := by
  unfold utf8EncodeChar; split_ifs <;> simp

theorem utf8DecodeLoop_encode : ∀ (cs : List Nat) (fuel : Nat), (∀ c ∈ cs, validCp c) →
    (utf8Encode cs).length ≤ fuel → utf8DecodeLoop fuel (utf8Encode cs) = some cs
  | [], fuel, _, _ => by simp [utf8Encode, utf8DecodeLoop]
  | c :: t, fuel, h, hfuel => by
    have hvc : validCp c := h c (by simp)
    obtain ⟨b, bs, hb⟩ : ∃ b bs, utf8EncodeChar c = b :: bs := by
      cases he : utf8EncodeChar c with
      | nil => exact absurd he (utf8EncodeChar_ne_nil c)
      | cons x xs => exact ⟨x, xs, rfl⟩
    have hlen : (utf8Encode (c :: t)).length = (utf8EncodeChar c).length +
        (utf8Encode t).length := by
      rw [utf8Encode, List.length_append]
    have hpos : 1 ≤ (utf8EncodeChar c).length := by
      rw [hb]; simp
    cases fuel with
    | zero =>
      exfalso
      rw [utf8Encode] at hfuel
      simp only [List.length_append, Nat.le_zero] at hfuel
      omega
    | succ f =>
      have hcons : utf8Encode (c :: t) = b :: (bs ++ utf8Encode t) := by
        rw [utf8Encode, hb, List.cons_append]
      have step : utf8DecodeOne (b :: (bs ++ utf8Encode t)) = some (c, utf8Encode t) := by
        rw [← List.cons_append, ← hb]
        exact utf8DecodeOne_encodeChar c hvc _
      rw [hcons]
      simp only [utf8DecodeLoop, step]
      have hle : (utf8Encode t).length ≤ f := by
        rw [hcons] at hfuel
        simp only [List.length_cons, List.length_append] at hfuel
        omega
      rw [utf8DecodeLoop_encode t f (fun x hx => h x (by simp [hx])) hle]
      rfl

theorem utf8_roundtrip (cs : List Nat) (h : ∀ c ∈ cs, validCp c) :
    utf8Decode? (utf8Encode cs) = some cs :=
  utf8DecodeLoop_encode cs _ h (Nat.le_refl _)

theorem utf8EncodeChar_lt256 (c : Nat) (hv : validCp c) :
    ∀ b ∈ utf8EncodeChar c, b < 256 := by
  unfold validCp at hv
  unfold utf8EncodeChar
  split_ifs <;> intro b hb <;> simp_all <;> omega

theorem utf8Encode_lt256 : ∀ (cs : List Nat), (∀ c ∈ cs, validCp c) →
    ∀ b ∈ utf8Encode cs, b < 256
  | [] => by simp [utf8Encode]
  | c :: t => fun h b hb => by
    rw [utf8Encode] at hb
    rcases List.mem_append.mp hb with h1 | h2
    · exact utf8EncodeChar_lt256 c (h c (by simp)) b h1
    · exact utf8Encode_lt256 t (fun x hx => h x (by simp [hx])) b h2

/-! ## Helper lemmas: strings and characters -/

theorem char_validCp (c : Char) : validCp c.toNat := c.valid

theorem toNat_ofNat_valid (n : Nat) (h : n.isValidChar) : (Char.ofNat n).toNat = n := by
  simp [Char.ofNat, h, Char.ofNatAux, Char.toNat, UInt32.toNat]

theorem validCp_isValidChar {n : Nat} (h : validCp n) : n.isValidChar := h

theorem strCodes_valid (s : String) : ∀ c ∈ strCodes s, validCp c := by
  intro c hc
  simp only [strCodes, List.mem_map] at hc
  obtain ⟨ch, _, rfl⟩ := hc
  exact char_validCp ch

theorem codesToStr_strCodes (s : String) : codesToStr (strCodes s) = s := by
  simp only [codesToStr, strCodes, List.map_map]
  have : (Char.ofNat ∘ Char.toNat) = id := by
    funext c; exact Char.ofNat_toNat c
  rw [this, List.map_id]

theorem strCodes_codesToStr (l : List Nat) (h : ∀ b ∈ l, validCp b) :
    strCodes (codesToStr l) = l := by
  simp only [codesToStr, strCodes, List.map_map]
  have : ∀ b ∈ l, (Char.toNat ∘ Char.ofNat) b = id b := by
    intro b hb
    exact toNat_ofNat_valid b (validCp_isValidChar (h b hb))
  rw [List.map_congr_left this, List.map_id]

theorem strCodes_eq_nil_iff (s : String) : strCodes s = [] ↔ s = "" := by
  cases s with
  | mk d =>
    simp only [strCodes, List.map_eq_nil_iff]
    constructor
    · intro h; subst h; rfl
    · intro h
      have : (String.mk d).data = ("" : String).data := by rw [h]
      simpa using this

theorem codesToStr_eq_empty_iff (l : List Nat) : codesToStr l = "" ↔ l = [] := by
  constructor
  · intro h
    have : (codesToStr l).data = [] := by rw [h]
    simpa [codesToStr] using this
  · intro h; subst h; rfl

/-! ## Helper lemmas: checksum and cipher primitives -/

theorem prfStep_lt256 (a b : Nat) : prfStep a b < 256 := by
  unfold prfStep; omega

theorem foldl_prfStep_lt256 : ∀ (l : List Nat) (a : Nat), a < 256 → l.foldl prfStep a < 256
  | [], _, h => h
  | _ :: t, a, _ => foldl_prfStep_lt256 t _ (prfStep_lt256 a _)

theorem prfByte_lt256 (seed : List Nat) (i : Nat) : prfByte seed i < 256 :=
  foldl_prfStep_lt256 seed _ (Nat.mod_lt _ (by omega))

theorem macBytes_length (n : Nat) (seed : List Nat) : (macBytes n seed).length = n := by
  simp [macBytes]

theorem macBytes_lt256 (n : Nat) (seed : List Nat) : ∀ b ∈ macBytes n seed, b < 256 := by
  intro b hb
  simp only [macBytes, List.mem_map] at hb
  obtain ⟨i, _, rfl⟩ := hb
  exact prfByte_lt256 seed i

theorem aead_roundtrip (label : Nat) (key nonce pt : List Nat) :
    aeadDecrypt label key nonce (aeadEncrypt label key nonce pt) = .ok pt := by
  unfold aeadEncrypt aeadDecrypt
  have hlen : (pt ++ aeadTag label key nonce pt).length = pt.length + 16 := by
    simp [aeadTag, macBytes_length]
  rw [hlen]
  have h16 : pt.length + 16 - 16 = pt.length := by omega
  rw [if_neg (by omega), h16, List.take_left' rfl, List.drop_left' rfl, if_pos rfl]

theorem fernet_roundtrip (key iv pt : List Nat) (hiv : iv.length = 16) :
    fernetDecrypt key (fernetToken key iv pt) = .ok pt := by
  have hassoc : fernetToken key iv pt = 128 :: (iv ++ (pt ++ fernetMac key iv pt)) := by
    rw [fernetToken, List.append_assoc, List.cons_append]
  rw [hassoc]
  have hrest : (iv ++ (pt ++ fernetMac key iv pt)).length = pt.length + 48 := by
    simp only [List.length_append, hiv, fernetMac, macBytes_length]
    omega
  rw [fernetDecrypt, if_pos rfl, hrest, if_neg (by omega)]
  rw [List.take_left' hiv, List.drop_left' hiv]
  have hbody : (pt ++ fernetMac key iv pt).length = pt.length + 32 := by
    simp only [List.length_append, fernetMac, macBytes_length]
  rw [hbody]
  have h32 : pt.length + 32 - 32 = pt.length := by omega
  rw [h32, List.take_left' rfl, List.drop_left' rfl, if_pos rfl]

/-! ## Helper lemmas: byte bounds of ciphertexts -/

theorem strBytes_lt256 (s : String) : ∀ b ∈ strBytes s, b < 256 :=
  utf8Encode_lt256 _ (strCodes_valid s)

theorem fernetToken_lt256 (key iv pt : List Nat) (hiv : ∀ b ∈ iv, b < 256)
    (hpt : ∀ b ∈ pt, b < 256) : ∀ b ∈ fernetToken key iv pt, b < 256 := by
  intro b hb
  simp only [fernetToken, List.cons_append, List.mem_cons, List.mem_append] at hb
  rcases hb with rfl | (h | h) | h
  · omega
  · exact hiv b h
  · exact hpt b h
  · exact macBytes_lt256 _ _ b h

theorem aeadEncrypt_lt256 (label : Nat) (key nonce pt : List Nat)
    (hpt : ∀ b ∈ pt, b < 256) : ∀ b ∈ aeadEncrypt label key nonce pt, b < 256 := by
  intro b hb
  simp only [aeadEncrypt, List.mem_append] at hb
  rcases hb with h | h
  · exact hpt b h
  · exact macBytes_lt256 _ _ b h

theorem fernetToken_ne_nil (key iv pt : List Nat) : fernetToken key iv pt ≠ [] := by
  simp [fernetToken]

theorem b64encode_valid (l : List Nat) : ∀ c ∈ b64encode l, validCp c := by
  intro c hc
  exact Or.inl (by have := b64encode_lt128 l c hc; omega)

/-! ## Helper lemmas: the password-value layer -/

theorem decryptValue_encryptValue (m : EncryptionManager) (rnd : List Nat) (v : String)
    (halg : m.encryption_algorithm = "fernet" ∨ m.encryption_algorithm = "aes-gcm" ∨
      m.encryption_algorithm = "chacha20")
    (hlen : rnd.length = if m.encryption_algorithm = "fernet" then 16 else 12)
    (hrb : ∀ b ∈ rnd, b < 256) :
    PasswordStorage.decryptValue m (PasswordStorage.encryptValue m rnd v) = v := by
  obtain ⟨alg, key⟩ := m
  simp only at halg hlen
  by_cases hv : v = ""
  · subst hv
    simp [PasswordStorage.encryptValue, PasswordStorage.decryptValue]
  have hptb : ∀ b ∈ strBytes v, b < 256 := strBytes_lt256 v
  have hdec : utf8Decode? (strBytes v) = some (strCodes v) :=
    utf8_roundtrip _ (strCodes_valid v)
  rcases halg with h | h | h <;> subst h
  · -- fernet
    have hlen16 : rnd.length = 16 := by simpa using hlen
    have hE := fernetToken_lt256 key rnd (strBytes v) hrb hptb
    have hEnil := fernetToken_ne_nil key rnd (strBytes v)
    simp only [PasswordStorage.encryptValue, if_neg hv, eq_self_iff_true, if_true]
    have hsne : codesToStr (b64encode (fernetToken key rnd (strBytes v))) ≠ "" := by
      rw [ne_eq, codesToStr_eq_empty_iff]
      exact b64encode_ne_nil _ hEnil
    rw [PasswordStorage.decryptValue, if_neg hsne,
      strCodes_codesToStr _ (b64encode_valid _), b64_roundtrip _ hE]
    simp only [fieldDecryptCore, eq_self_iff_true, if_true]
    rw [fernet_roundtrip key rnd (strBytes v) hlen16]
    simp only [hdec, codesToStr_strCodes]
  · -- aes-gcm
    have hlen12 : rnd.length = 12 := by simpa using hlen
    have hE : ∀ b ∈ rnd ++ aeadEncrypt 0 key rnd (strBytes v), b < 256 := by
      intro b hb
      rcases List.mem_append.mp hb with h | h
      · exact hrb b h
      · exact aeadEncrypt_lt256 0 key rnd (strBytes v) hptb b h
    have hEnil : rnd ++ aeadEncrypt 0 key rnd (strBytes v) ≠ [] := by
      simp only [ne_eq, List.append_eq_nil, not_and]
      intro hrnil
      rw [hrnil] at hlen12
      simp at hlen12
    simp only [PasswordStorage.encryptValue, if_neg hv, if_neg (by decide : ¬("aes-gcm" = "fernet")),
      eq_self_iff_true, if_true]
    have hsne : codesToStr (b64encode (rnd ++ aeadEncrypt 0 key rnd (strBytes v))) ≠ "" := by
      rw [ne_eq, codesToStr_eq_empty_iff]
      exact b64encode_ne_nil _ hEnil
    rw [PasswordStorage.decryptValue, if_neg hsne,
      strCodes_codesToStr _ (b64encode_valid _), b64_roundtrip _ hE]
    simp only [fieldDecryptCore, if_neg (by decide : ¬("aes-gcm" = "fernet")),
      eq_self_iff_true, if_true]
    rw [List.take_left' hlen12, List.drop_left' hlen12, aead_roundtrip]
    simp only [hdec, codesToStr_strCodes]
  · -- chacha20
    have hlen12 : rnd.length = 12 := by simpa using hlen
    have hE : ∀ b ∈ rnd ++ aeadEncrypt 1 key rnd (strBytes v), b < 256 := by
      intro b hb
      rcases List.mem_append.mp hb with h | h
      · exact hrb b h
      · exact aeadEncrypt_lt256 1 key rnd (strBytes v) hptb b h
    have hEnil : rnd ++ aeadEncrypt 1 key rnd (strBytes v) ≠ [] := by
      simp only [ne_eq, List.append_eq_nil, not_and]
      intro hrnil
      rw [hrnil] at hlen12
      simp at hlen12
    simp only [PasswordStorage.encryptValue, if_neg hv,
      if_neg (by decide : ¬("chacha20" = "fernet")),
      if_neg (by decide : ¬("chacha20" = "aes-gcm")), eq_self_iff_true, if_true]
    have hsne : codesToStr (b64encode (rnd ++ aeadEncrypt 1 key rnd (strBytes v))) ≠ "" := by
      rw [ne_eq, codesToStr_eq_empty_iff]
      exact b64encode_ne_nil _ hEnil
    rw [PasswordStorage.decryptValue, if_neg hsne,
      strCodes_codesToStr _ (b64encode_valid _), b64_roundtrip _ hE]
    simp only [fieldDecryptCore, if_neg (by decide : ¬("chacha20" = "fernet")),
      if_neg (by decide : ¬("chacha20" = "aes-gcm")), eq_self_iff_true, if_true]
    rw [List.take_left' hlen12, List.drop_left' hlen12, aead_roundtrip]
    simp only [hdec, codesToStr_strCodes]

theorem decryptValue_of_fails (m : EncryptionManager) (s : String) (hs : s ≠ "")
    (hf : valueDecFails m s = true) :
    PasswordStorage.decryptValue m s = "[Error: Could not decrypt]" := by
  rw [PasswordStorage.decryptValue, if_neg hs]
  unfold valueDecFails at hf
  cases hb : b64decode? (strCodes s) with
  | none => rfl
  | some eb =>
    simp only [hb] at hf ⊢
    cases hc : fieldDecryptCore m eb with
    | error e => simp only [hc]
    | ok db =>
      simp only [hc] at hf ⊢
      cases hu : utf8Decode? db with
      | none => simp only [hu]
      | some cs =>
        rw [hu] at hf
        simp at hf

/-! ## Helper lemmas: storage save/load -/

theorem loadEntry_saved (m : EncryptionManager) (rnd : List Nat) (fid now : String)
    (p : Password)
    (halg : m.encryption_algorithm = "fernet" ∨ m.encryption_algorithm = "aes-gcm" ∨
      m.encryption_algorithm = "chacha20")
    (hlen : rnd.length = if m.encryption_algorithm = "fernet" then 16 else 12)
    (hrb : ∀ b ∈ rnd, b < 256)
    (hid : p.id ≠ "") (hcr : p.created ≠ "") (hmo : p.modified ≠ "") :
    loadEntry m fid now
      { p.toDict with value := some (PasswordStorage.encryptValue m rnd p.value) } = p := by
  unfold loadEntry Password.fromDict Password.toDict orFresh
  simp only [Option.map_some', Option.getD_some]
  rw [decryptValue_encryptValue m rnd p.value halg hlen hrb]
  rw [if_neg hid, if_neg hcr, if_neg hmo]

theorem loadList_saveList (m : EncryptionManager) (rnds : Nat → List Nat)
    (fids : Nat → String) (now : String)
    (halg : m.encryption_algorithm = "fernet" ∨ m.encryption_algorithm = "aes-gcm" ∨
      m.encryption_algorithm = "chacha20")
    (hlen : ∀ i, (rnds i).length = if m.encryption_algorithm = "fernet" then 16 else 12)
    (hrb : ∀ i, ∀ b ∈ rnds i, b < 256) :
    ∀ (k : Nat) (ps : List Password),
      (∀ p ∈ ps, p.id ≠ "" ∧ p.created ≠ "" ∧ p.modified ≠ "") →
      loadPasswordsList m fids now k (savePasswordsList m rnds k ps) = ps
  | _, [], _ => rfl
  | k, p :: t, hps => by
    obtain ⟨hid, hcr, hmo⟩ := hps p (by simp)
    rw [savePasswordsList, loadPasswordsList,
      loadEntry_saved m (rnds k) (fids k) now p halg (hlen k) (hrb k) hid hcr hmo,
      loadList_saveList m rnds fids now halg hlen hrb (k + 1) t
        (fun q hq => hps q (by simp [hq]))]

/-! ## Helper lemmas: update and import loops -/

theorem updateFirst_none_iff (idv : String) (up : Password) (now : String) :
    ∀ (ps : List Password), updateFirst idv up now ps = none ↔ ∀ p ∈ ps, p.id ≠ idv
  | [] => by simp [updateFirst]
  | p :: t => by
    rw [updateFirst]
    by_cases h : p.id = idv
    · simp only [if_pos h]
      constructor
      · intro hc
        exact absurd hc (by simp)
      · intro hall
        exact absurd h (hall p (by simp))
    · simp only [if_neg h, Option.map_eq_none']
      rw [updateFirst_none_iff idv up now t]
      constructor
      · intro hall q hq
        rcases List.mem_cons.mp hq with rfl | hq2
        · exact h
        · exact hall q hq2
      · intro hall q hq
        exact hall q (by simp [hq])

theorem updateFirst_found (idv : String) (up : Password) (now : String) :
    ∀ (ps : List Password) (i : Nat) (hi : i < ps.length),
      (∀ p ∈ ps.take i, p.id ≠ idv) → (ps.get ⟨i, hi⟩).id = idv →
      updateFirst idv up now ps = some (ps.take i ++
        { up with id := idv, created := (ps.get ⟨i, hi⟩).created, modified := now } ::
        ps.drop (i + 1))
  | [], i, hi, _, _ => absurd hi (by simp)
  | p :: t, 0, _, _, hmatch => by
    simp only [List.get] at hmatch
    rw [updateFirst, if_pos hmatch]
    simp [List.get]
  | p :: t, i + 1, hi, hpre, hmatch => by
    have hp : p.id ≠ idv := hpre p (by simp [List.take_succ_cons])
    rw [updateFirst, if_neg hp]
    have hi2 : i < t.length := by simpa using hi
    rw [updateFirst_found idv up now t i hi2
      (fun q hq => hpre q (by simp [List.take_succ_cons, hq]))
      (by simpa using hmatch)]
    simp [List.take_succ_cons, List.get]

theorem importAux_count (fids : Nat → String) (now : String) (rnds : Nat → List Nat) :
    ∀ (data : List PwDict) (st : PasswordStorage) (k : Nat),
      (importAux fids now rnds st k data).2 =
        k + (data.filter (fun d => decide (d.value ≠ some "[REDACTED]"))).length
  | [], _, _ => by simp [importAux]
  | d :: t, st, k => by
    rw [importAux]
    by_cases h : d.value = some "[REDACTED]"
    · rw [if_pos h, importAux_count fids now rnds t st k]
      simp [List.filter_cons, h]
    · rw [if_neg h, importAux_count fids now rnds t _ (k + 1)]
      simp only [List.filter_cons, h]
      simp [h]
      omega

theorem importAux_passwords (fids : Nat → String) (now : String) (rnds : Nat → List Nat) :
    ∀ (data : List PwDict) (st : PasswordStorage) (k : Nat),
      (importAux fids now rnds st k data).1.passwords =
        st.passwords ++ importedRecords fids now k data
  | [], _, _ => by simp [importAux, importedRecords]
  | d :: t, st, k => by
    rw [importAux, importedRecords]
    by_cases h : d.value = some "[REDACTED]"
    · rw [if_pos h, if_pos h, importAux_passwords fids now rnds t st k]
    · rw [if_neg h, if_neg h, importAux_passwords fids now rnds t _ (k + 1)]
      simp [PasswordStorage.add_password, List.append_assoc]

theorem loadList_length (m : EncryptionManager) (fids : Nat → String) (now : String) :
    ∀ (k : Nat) (ds : List PwDict), (loadPasswordsList m fids now k ds).length = ds.length
  | _, [] => rfl
  | k, _ :: t => by
    rw [loadPasswordsList, List.length_cons, List.length_cons,
      loadList_length m fids now (k + 1) t]

/-! ## Claims -/

/-- C1: for every supported algorithm tag (fernet, aes-gcm, chacha20) and
for every byte string `p`, including the empty byte string, decrypting the
result of encrypting `p` with the same `EncryptionManager` (same key
material and algorithm) returns exactly `p`.  The per-call randomness is
explicit and carries its real shape (16-byte Fernet IV, 12-byte AEAD
nonce, byte-valued). -/
theorem encrypt_decrypt_roundtrip (m : EncryptionManager) (rnd p : List Nat)
    (halg : m.encryption_algorithm = "fernet" ∨ m.encryption_algorithm = "aes-gcm" ∨
      m.encryption_algorithm = "chacha20")
    (hlen : rnd.length = if m.encryption_algorithm = "fernet" then 16 else 12) :
    m.decrypt (m.encrypt rnd p) = .ok p := by
  obtain ⟨alg, key⟩ := m
  simp only at halg hlen
  by_cases hp : p = []
  · subst hp
    simp [EncryptionManager.encrypt, EncryptionManager.decrypt, encryptWith, decryptWith]
  rcases halg with h | h | h <;> subst h
  · have h16 : rnd.length = 16 := by simpa using hlen
    have henc : EncryptionManager.encrypt ⟨"fernet", key⟩ rnd p = fernetToken key rnd p := by
      simp only [EncryptionManager.encrypt, encryptWith, realPrim, if_neg hp,
        eq_self_iff_true, if_true]
    rw [henc, EncryptionManager.decrypt, decryptWith,
      if_neg (fernetToken_ne_nil key rnd p), if_pos rfl]
    exact fernet_roundtrip key rnd p h16
  · have h12 : rnd.length = 12 := by simpa using hlen
    have henc : EncryptionManager.encrypt ⟨"aes-gcm", key⟩ rnd p =
        rnd ++ aeadEncrypt 0 key rnd p := by
      simp only [EncryptionManager.encrypt, encryptWith, realPrim, if_neg hp,
        if_neg (by decide : ¬("aes-gcm" = "fernet")), eq_self_iff_true, if_true]
    have hne : rnd ++ aeadEncrypt 0 key rnd p ≠ [] := by
      simp only [ne_eq, List.append_eq_nil, not_and]
      intro hr
      rw [hr] at h12
      simp at h12
    rw [henc, EncryptionManager.decrypt, decryptWith, if_neg hne,
      if_neg (by decide : ¬("aes-gcm" = "fernet")), if_pos rfl]
    simp only [realPrim]
    rw [List.take_left' h12, List.drop_left' h12]
    exact aead_roundtrip 0 key rnd p
  · have h12 : rnd.length = 12 := by simpa using hlen
    have henc : EncryptionManager.encrypt ⟨"chacha20", key⟩ rnd p =
        rnd ++ aeadEncrypt 1 key rnd p := by
      simp only [EncryptionManager.encrypt, encryptWith, realPrim, if_neg hp,
        if_neg (by decide : ¬("chacha20" = "fernet")),
        if_neg (by decide : ¬("chacha20" = "aes-gcm")), eq_self_iff_true, if_true]
    have hne : rnd ++ aeadEncrypt 1 key rnd p ≠ [] := by
      simp only [ne_eq, List.append_eq_nil, not_and]
      intro hr
      rw [hr] at h12
      simp at h12
    rw [henc, EncryptionManager.decrypt, decryptWith, if_neg hne,
      if_neg (by decide : ¬("chacha20" = "fernet")),
      if_neg (by decide : ¬("chacha20" = "aes-gcm")), if_pos rfl]
    simp only [realPrim]
    rw [List.take_left' h12, List.drop_left' h12]
    exact aead_roundtrip 1 key rnd p

/-- Witness for C1: the round trip evaluated at a concrete aes-gcm manager,
nonce and plaintext. -/
theorem encrypt_decrypt_roundtrip_witness :
    EncryptionManager.decrypt ⟨"aes-gcm", List.replicate 32 3⟩
      (EncryptionManager.encrypt ⟨"aes-gcm", List.replicate 32 3⟩ (List.replicate 12 5)
        (asciiBytes "hello")) = .ok (asciiBytes "hello") :=
  encrypt_decrypt_roundtrip ⟨"aes-gcm", List.replicate 32 3⟩ (List.replicate 12 5)
    (asciiBytes "hello") (Or.inr (Or.inl rfl)) (by decide)

/-- C8: for every configured algorithm string (not just the supported
tags), every key, every primitive bundle and every randomness, encrypting
the empty byte sequence returns the empty byte sequence and decrypting the
empty byte sequence returns the empty byte sequence; the result is
independent of the primitives, so the underlying cipher is never
invoked. -/
theorem empty_input_shortcut :
    (∀ (P : CipherPrim) (m : EncryptionManager) (rnd : List Nat),
      encryptWith P m rnd [] = [] ∧ decryptWith P m [] = .ok []) ∧
    (∀ (m : EncryptionManager) (rnd : List Nat),
      EncryptionManager.encrypt m rnd [] = [] ∧ EncryptionManager.decrypt m [] = .ok []) := by
  refine ⟨fun P m rnd => ⟨?_, ?_⟩, fun m rnd => ⟨?_, ?_⟩⟩ <;>
    simp [encryptWith, decryptWith, EncryptionManager.encrypt, EncryptionManager.decrypt]

/-- C7 counterexample: decrypting the empty byte string — a truncated
input of fewer than 12 bytes — under a nonce-based algorithm does not fail
with an authentication error; the empty-input shortcut returns the empty
byte string. -/
theorem aead_truncated_empty_cex :
    EncryptionManager.decrypt ⟨"aes-gcm", List.replicate 32 3⟩ [] = .ok [] ∧
    EncryptionManager.decrypt ⟨"aes-gcm", List.replicate 32 3⟩ [] ≠
      .error CryptoError.invalidTag ∧
    EncryptionManager.decrypt ⟨"aes-gcm", List.replicate 32 3⟩ [] ≠
      .error CryptoError.invalidToken := by
  refine ⟨rfl, ?_, ?_⟩ <;> intro h <;> cases h

/-- C7 (amended): for the nonce-based algorithms, encrypt returns the
fresh 12-byte nonce followed by ciphertext-with-tag (12 + n + 16 bytes for
a nonempty plaintext of length n); decrypt splits the first 12 bytes off
as the nonce and treats the remainder as ciphertext plus tag, failing with
an authentication error on tag mismatch or on truncated NONEMPTY input of
fewer than 12 bytes (the empty input is returned unchanged by the
empty-input shortcut). -/
theorem aead_nonce_layout (alg : String) (key nonce pt d : List Nat)
    (halg : alg = "aes-gcm" ∨ alg = "chacha20") :
    (pt ≠ [] → nonce.length = 12 →
      EncryptionManager.encrypt ⟨alg, key⟩ nonce pt =
        nonce ++ aeadEncrypt (if alg = "aes-gcm" then 0 else 1) key nonce pt ∧
      (EncryptionManager.encrypt ⟨alg, key⟩ nonce pt).length = 12 + pt.length + 16) ∧
    (d ≠ [] → EncryptionManager.decrypt ⟨alg, key⟩ d =
      aeadDecrypt (if alg = "aes-gcm" then 0 else 1) key (d.take 12) (d.drop 12)) ∧
    (d ≠ [] → d.length < 12 →
      EncryptionManager.decrypt ⟨alg, key⟩ d = .error CryptoError.invalidTag) ∧
    (d ≠ [] → 16 ≤ (d.drop 12).length →
      (d.drop 12).drop ((d.drop 12).length - 16) ≠
        aeadTag (if alg = "aes-gcm" then 0 else 1) key (d.take 12)
          ((d.drop 12).take ((d.drop 12).length - 16)) →
      EncryptionManager.decrypt ⟨alg, key⟩ d = .error CryptoError.invalidTag) := by
  have hlabel : EncryptionManager.decrypt ⟨alg, key⟩ d = (if d = [] then .ok [] else
      aeadDecrypt (if alg = "aes-gcm" then 0 else 1) key (d.take 12) (d.drop 12)) := by
    rcases halg with h | h <;> subst h
    · simp only [EncryptionManager.decrypt, decryptWith, realPrim,
        if_neg (by decide : ¬("aes-gcm" = "fernet")), eq_self_iff_true, if_true]
    · simp only [EncryptionManager.decrypt, decryptWith, realPrim,
        if_neg (by decide : ¬("chacha20" = "fernet")),
        if_neg (by decide : ¬("chacha20" = "aes-gcm")), eq_self_iff_true, if_true,
        if_neg (by decide : ¬("chacha20" = "aes-gcm"))]
  refine ⟨?_, ?_, ?_, ?_⟩
  · intro hpt hn
    have henc : EncryptionManager.encrypt ⟨alg, key⟩ nonce pt =
        nonce ++ aeadEncrypt (if alg = "aes-gcm" then 0 else 1) key nonce pt := by
      rcases halg with h | h <;> subst h
      · simp only [EncryptionManager.encrypt, encryptWith, realPrim, if_neg hpt,
          if_neg (by decide : ¬("aes-gcm" = "fernet")), eq_self_iff_true, if_true]
      · simp only [EncryptionManager.encrypt, encryptWith, realPrim, if_neg hpt,
          if_neg (by decide : ¬("chacha20" = "fernet")),
          if_neg (by decide : ¬("chacha20" = "aes-gcm")), eq_self_iff_true, if_true]
    refine ⟨henc, ?_⟩
    rw [henc]
    simp only [List.length_append, aeadEncrypt, aeadTag, macBytes_length, hn]
    omega
  · intro hd
    rw [hlabel, if_neg hd]
  · intro hd hshort
    rw [hlabel, if_neg hd, aeadDecrypt, if_pos ?_]
    have : (d.drop 12).length = d.length - 12 := List.length_drop 12 d
    omega
  · intro hd hlong htag
    rw [hlabel, if_neg hd, aeadDecrypt, if_neg (by omega), if_neg htag]

/-- Witness for C7 (amended): the layout and failures evaluated at
concrete inputs: a 5-byte plaintext encrypts to 33 = 12 + 5 + 16 bytes,
a 3-byte nonempty input fails to decrypt, and so does a tampered
ciphertext. -/
theorem aead_nonce_layout_witness :
    (EncryptionManager.encrypt ⟨"aes-gcm", List.replicate 32 3⟩ (List.replicate 12 5)
      (asciiBytes "hello")).length = 12 + (asciiBytes "hello").length + 16 ∧
    EncryptionManager.decrypt ⟨"aes-gcm", List.replicate 32 3⟩ [9, 9, 9] =
      .error CryptoError.invalidTag :=
  ⟨((aead_nonce_layout "aes-gcm" (List.replicate 32 3) (List.replicate 12 5)
      (asciiBytes "hello") [9, 9, 9] (Or.inl rfl)).1 (by decide) (by decide)).2,
   (aead_nonce_layout "aes-gcm" (List.replicate 32 3) (List.replicate 12 5)
      (asciiBytes "hello") [9, 9, 9] (Or.inl rfl)).2.2.1 (by decide) (by decide)⟩

/-- C2: for every record set held by the storage (whose entries, having
passed through the `Password` constructor, have nonempty id and
timestamps), rotating the encryption key — same algorithm, fresh key
material persisted to the key file, records re-encrypted and rewritten —
followed by loading the records returns a record set identical by value to
the set that existed before rotation. -/
theorem rotate_key_preserves_records (st : PasswordStorage) (g : GenMaterial)
    (rnds : Nat → List Nat) (fids : Nat → String) (now : String)
    (halg : st.encryption_algorithm = "fernet" ∨ st.encryption_algorithm = "aes-gcm" ∨
      st.encryption_algorithm = "chacha20")
    (hlen : ∀ i, (rnds i).length = if st.encryption_algorithm = "fernet" then 16 else 12)
    (hrb : ∀ i, ∀ b ∈ rnds i, b < 256)
    (hps : ∀ p ∈ st.passwords, p.id ≠ "" ∧ p.created ≠ "" ∧ p.modified ≠ "") :
    ∃ st2, st.rotate_encryption_key g rnds = some st2 ∧
      st2.load_passwords fids now = st.passwords := by
  rcases halg with h | h | h
  · rw [PasswordStorage.rotate_encryption_key, if_pos h]
    refine ⟨_, rfl, ?_⟩
    simp only [PasswordStorage.load_passwords, PasswordStorage.manager]
    exact loadList_saveList ⟨st.encryption_algorithm, g.fernetKey⟩ rnds fids now
      (Or.inl h) hlen hrb 0 st.passwords hps
  · rw [PasswordStorage.rotate_encryption_key, if_neg (by rw [h]; decide),
      if_pos (Or.inl h)]
    refine ⟨_, rfl, ?_⟩
    simp only [PasswordStorage.load_passwords, PasswordStorage.manager]
    exact loadList_saveList ⟨st.encryption_algorithm, g.key32⟩ rnds fids now
      (Or.inr (Or.inl h)) hlen hrb 0 st.passwords hps
  · rw [PasswordStorage.rotate_encryption_key, if_neg (by rw [h]; decide),
      if_pos (Or.inr h)]
    refine ⟨_, rfl, ?_⟩
    simp only [PasswordStorage.load_passwords, PasswordStorage.manager]
    exact loadList_saveList ⟨st.encryption_algorithm, g.key32⟩ rnds fids now
      (Or.inr (Or.inr h)) hlen hrb 0 st.passwords hps

/-- Witness for C2: rotation of a concrete one-record Fernet storage
followed by a load returns the original record. -/
theorem rotate_key_preserves_records_witness :
    ∃ st2, sampleStorage.rotate_encryption_key sampleG sampleRnds = some st2 ∧
      st2.load_passwords (fun _ => "uuid-w") "2024-06-01T00:00:00" = sampleStorage.passwords :=
  rotate_key_preserves_records sampleStorage sampleG sampleRnds (fun _ => "uuid-w")
    "2024-06-01T00:00:00" (Or.inl rfl) (fun _ => by unfold sampleRnds; decide)
    (fun _ => by unfold sampleRnds; decide)
    (by intro p hp
        simp only [sampleStorage, List.mem_singleton] at hp
        subst hp
        refine ⟨by decide, by decide, by decide⟩)

/-- C3 counterexample: a structured key file whose embedded `algorithm`
field says `aes-gcm`, loaded with `chacha20` configured in settings,
selects the ChaCha20 cipher — the settings algorithm, not the
file-embedded one, decides the cipher, refuting the claimed precedence of
the file. -/
theorem file_algorithm_precedence_cex :
    parseKeyFile aesKeyFileJson =
      KeyParse.ok ⟨List.replicate 32 65, some (asciiBytes "aes-gcm"), none, none⟩ ∧
    initialize_encryption "chacha20" (some aesKeyFileJson) sampleG =
      ⟨some (Cipher.chacha (List.replicate 32 65)), none⟩ ∧
    asciiBytes "aes-gcm" ≠ asciiBytes "chacha20" := by
  refine ⟨by decide, by decide, by decide⟩

/-- C3 (amended): for a structured key file, the cipher is selected by the
caller-configured settings algorithm; the file's embedded `algorithm`
field is ignored (the selection below never consults it).  Only the file's
key material is used — and under fernet settings the whole file content is
fed to the Fernet constructor, falling back to key generation when that
fails. -/
theorem settings_algorithm_precedence (settingsAlg : String) (content : List Nat)
    (kd : KeyData) (g : GenMaterial) (hp : parseKeyFile content = .ok kd) :
    (settingsAlg = "aes-gcm" → kd.key.length = 32 →
      initialize_encryption settingsAlg (some content) g =
        ⟨some (Cipher.aesgcm kd.key), none⟩) ∧
    (settingsAlg = "chacha20" → kd.key.length = 32 →
      initialize_encryption settingsAlg (some content) g =
        ⟨some (Cipher.chacha kd.key), none⟩) ∧
    (settingsAlg = "fernet" →
      initialize_encryption settingsAlg (some content) g =
        if fernetKeyOk content then ⟨some (Cipher.fernet content), none⟩
        else generateNewKey "fernet" g) := by
  refine ⟨?_, ?_, ?_⟩
  · intro h1 h2
    subst h1
    simp only [initialize_encryption, hp]
    simp only [if_true]
    rw [if_pos (Or.inr (Or.inr h2)), if_neg (by decide : ¬("aes-gcm" = "fernet"))]
  · intro h1 h2
    subst h1
    simp only [initialize_encryption, hp]
    simp only [if_true]
    rw [if_pos h2, if_neg (by decide : ¬("chacha20" = "fernet")),
      if_neg (by decide : ¬("chacha20" = "aes-gcm"))]
  · intro h1
    subst h1
    simp only [initialize_encryption, hp]
    simp only [if_true]

/-- Witness for C3 (amended): the concrete aes-gcm-labelled key file under
chacha20 settings yields the ChaCha20 cipher over the file's key bytes. -/
theorem settings_algorithm_precedence_witness :
    initialize_encryption "chacha20" (some aesKeyFileJson) sampleG =
      ⟨some (Cipher.chacha (List.replicate 32 65)), none⟩ :=
  (settings_algorithm_precedence "chacha20" aesKeyFileJson
      ⟨List.replicate 32 65, some (asciiBytes "aes-gcm"), none, none⟩ sampleG
      (by decide)).2.1 rfl (by decide)

/-- C4 counterexample: the key file content `"abc"` is not valid JSON, so
the legacy branch applies `Fernet(file_content)` — whose constructor
rejects it (not urlsafe base64 of 32 bytes); the outer handler then
generates and persists a replacement key, so the content is NOT accepted
as the key material and a replacement key IS generated. -/
theorem legacy_garbage_key_cex :
    parseKeyFile (asciiBytes "abc") = KeyParse.jsonError ∧
    fernetKeyOk (asciiBytes "abc") = false ∧
    initialize_encryption "fernet" (some (asciiBytes "abc")) sampleG =
      ⟨some (Cipher.fernet sampleG.fernetKey), some sampleG.fernetKey⟩ ∧
    sampleG.fernetKey ≠ asciiBytes "abc" := by
  refine ⟨by decide, by decide, by decide, by decide⟩

/-- C4 (amended): for an existing key file whose contents are not valid
JSON, loading never crashes: if the whole content is a valid Fernet key
(urlsafe base64 of 32 bytes) it is accepted as a legacy raw key with no
replacement generated; otherwise the Fernet constructor fails and the
outer handler generates and persists a fresh key for the configured
algorithm. -/
theorem legacy_key_fallback (settingsAlg : String) (content : List Nat) (g : GenMaterial)
    (hj : parseKeyFile content = .jsonError) :
    (fernetKeyOk content = true →
      initialize_encryption settingsAlg (some content) g =
        ⟨some (Cipher.fernet content), none⟩) ∧
    (fernetKeyOk content = false →
      initialize_encryption settingsAlg (some content) g = generateNewKey settingsAlg g) ∧
    ((settingsAlg = "fernet" ∨ settingsAlg = "aes-gcm" ∨ settingsAlg = "chacha20") →
      (generateNewKey settingsAlg g).cipher.isSome = true ∧
      (generateNewKey settingsAlg g).wroteKeyFile.isSome = true) := by
  refine ⟨?_, ?_, ?_⟩
  · intro hok
    simp only [initialize_encryption, hj]
    rw [if_pos hok]
  · intro hnot
    simp only [initialize_encryption, hj]
    rw [if_neg (by simp [hnot])]
  · intro halg
    rcases halg with h | h | h <;> subst h <;> simp [generateNewKey]

/-- Witness for C4 (amended): a 44-character legacy raw key (not JSON,
valid urlsafe base64 of 32 bytes) is accepted as-is with nothing written;
the garbage content `"abc"` leads to a freshly generated key. -/
theorem legacy_key_fallback_witness :
    initialize_encryption "fernet" (some legacyRawKey) sampleG =
      ⟨some (Cipher.fernet legacyRawKey), none⟩ ∧
    initialize_encryption "fernet" (some (asciiBytes "abc")) sampleG =
      generateNewKey "fernet" sampleG :=
  ⟨(legacy_key_fallback "fernet" legacyRawKey sampleG (by decide)).1 (by decide),
   (legacy_key_fallback "fernet" (asciiBytes "abc") sampleG (by decide)).2.1 (by decide)⟩

/-- C5 (code bug, evaluated): `badValueStorage` was loaded from a file
whose single entry's value cannot be decrypted; the load substituted the
error placeholder.  `rotate_encryption_key` then runs to completion
anyway: it never re-reads or re-decrypts anything (its read step is
`get_all_passwords`, which returns the in-memory list), overwrites the key
file with the new key, and rewrites the record file with the placeholder
string encrypted under the new key — the undecryptable value is
irrecoverably destroyed instead of the operation aborting before touching
any file. -/
theorem rotation_reencrypts_error_placeholder :
    (badValueStorage.rotate_encryption_key sampleG sampleRnds).isSome = true ∧
    badValueStorage.passwords.map (fun p => p.value) = ["[Error: Could not decrypt]"] ∧
    badValueRotated.key_file ≠ badValueStorage.key_file ∧
    badValueRotated.storage_file ≠ badValueStorage.storage_file ∧
    (badValueRotated.storage_file.getD []).map
      (fun d => d.value.map (PasswordStorage.decryptValue badValueRotated.manager)) =
      [some "[Error: Could not decrypt]"] := by
  refine ⟨by decide, by decide, by decide, by decide, by decide⟩

/-- C6: error granularity differs by collection.  The password load
converts entries independently (same length, entry-wise), and an entry
whose stored value fails to decrypt only has that one field replaced by
the error placeholder, the other fields and entries being processed as
usual; a decrypt failure of the notes blob, by contrast, makes the whole
notes load produce the empty collection — no partial note set. -/
theorem field_vs_collection_error_granularity :
    (∀ (m : EncryptionManager) (fids : Nat → String) (now : String) (k : Nat)
        (ds : List PwDict), (loadPasswordsList m fids now k ds).length = ds.length) ∧
    (∀ (m : EncryptionManager) (fids : Nat → String) (now : String) (k : Nat)
        (d : PwDict) (ds : List PwDict),
      loadPasswordsList m fids now k (d :: ds) =
        loadEntry m (fids k) now d :: loadPasswordsList m fids now (k + 1) ds) ∧
    (∀ (m : EncryptionManager) (fid now : String) (d : PwDict) (s : String),
      d.value = some s → s ≠ "" → valueDecFails m s = true →
      loadEntry m fid now d =
        Password.fromDict fid now { d with value := some "[Error: Could not decrypt]" }) ∧
    (∀ (parse : List Nat → Option (List NoteDict)) (m : EncryptionManager)
        (blob : List Nat) (now : Nat) (e : CryptoError),
      blob ≠ [] → m.decrypt blob = .error e →
      NotesStorage.load_notes parse m (some blob) now = []) := by
  refine ⟨fun m fids now k ds => loadList_length m fids now k ds,
    fun _ _ _ _ _ _ => rfl, ?_, ?_⟩
  · intro m fid now d s hv hs hf
    rw [loadEntry, hv]
    simp only [Option.map_some']
    rw [decryptValue_of_fails m s hs hf]
  · intro parse m blob now e hblob herr
    rw [NotesStorage.load_notes, if_neg hblob, herr]

/-- Witness for C6: the entry with undecryptable value `"AAAA"` loads as
the same entry with the placeholder substituted, and a notes blob that
fails authentication loads as the empty collection. -/
theorem field_vs_collection_error_granularity_witness :
    loadEntry ⟨"fernet", asciiBytes "k0"⟩ "uuid-w" "2024-06-01T00:00:00" badValueEntry =
      Password.fromDict "uuid-w" "2024-06-01T00:00:00"
        { badValueEntry with value := some "[Error: Could not decrypt]" } ∧
    NotesStorage.load_notes (fun _ => none) ⟨"fernet", asciiBytes "k0"⟩
      (some (asciiBytes "AAAA")) 0 = [] :=
  ⟨field_vs_collection_error_granularity.2.2.1 ⟨"fernet", asciiBytes "k0"⟩ "uuid-w"
      "2024-06-01T00:00:00" badValueEntry "AAAA" (by decide) (by decide) (by decide),
   field_vs_collection_error_granularity.2.2.2 (fun _ => none) ⟨"fernet", asciiBytes "k0"⟩
      (asciiBytes "AAAA") 0 CryptoError.invalidToken (by decide) (by decide)⟩

/-- C9: export with secret values excluded substitutes the literal
redaction marker for every exported value; import skips exactly the
entries whose value equals the marker (never adding them) and returns the
number of non-skipped entries. -/
theorem export_redacts_import_skips :
    (∀ ps : List Password,
      PasswordStorage.export_passwords ps false =
        ps.map (fun p => { p.toDict with value := some "[REDACTED]" })) ∧
    (∀ (st : PasswordStorage) (data : List PwDict) (fids : Nat → String) (now : String)
        (rnds : Nat → List Nat),
      (st.import_passwords data fids now rnds).2 =
        (data.filter (fun d => decide (d.value ≠ some "[REDACTED]"))).length ∧
      (st.import_passwords data fids now rnds).1.passwords =
        st.passwords ++ importedRecords fids now 0 data) ∧
    (∀ (fids : Nat → String) (now : String) (k : Nat) (d : PwDict) (t : List PwDict),
      d.value = some "[REDACTED]" →
      importedRecords fids now k (d :: t) = importedRecords fids now k t) := by
  refine ⟨?_, ?_, ?_⟩
  · intro ps
    simp [PasswordStorage.export_passwords]
  · intro st data fids now rnds
    constructor
    · rw [PasswordStorage.import_passwords, importAux_count fids now rnds data st 0,
        Nat.zero_add]
    · rw [PasswordStorage.import_passwords, importAux_passwords fids now rnds data st 0]
  · intro fids now k d t h
    rw [importedRecords, if_pos h]

/-- Witness for C9: a redacted entry contributes nothing to the imported
records. -/
theorem export_redacts_import_skips_witness :
    importedRecords (fun _ => "uuid-w") "2024-06-01T00:00:00" 0
        [⟨some "x", some "[REDACTED]", none, none, none, none, none, none⟩] =
      importedRecords (fun _ => "uuid-w") "2024-06-01T00:00:00" 0 [] :=
  export_redacts_import_skips.2.2 (fun _ => "uuid-w") "2024-06-01T00:00:00" 0
    ⟨some "x", some "[REDACTED]", none, none, none, none, none, none⟩ [] rfl

/-- C10: `update_password` returns `True` exactly when an entry with the
given id exists; on `False` the whole storage is left unchanged; on a
match, only the first matching entry is replaced, the replacement being
forced to keep the matched entry's id and created timestamp and receiving
a fresh modified timestamp, with all entries before and after it
unchanged. -/
theorem update_password_frame (st : PasswordStorage) (idv : String) (up : Password)
    (now : String) (rnds : Nat → List Nat) :
    ((st.update_password idv up now rnds).2 = true ↔ ∃ p ∈ st.passwords, p.id = idv) ∧
    ((∀ p ∈ st.passwords, p.id ≠ idv) → st.update_password idv up now rnds = (st, false)) ∧
    (∀ (i : Nat) (hi : i < st.passwords.length),
      (∀ p ∈ st.passwords.take i, p.id ≠ idv) → (st.passwords.get ⟨i, hi⟩).id = idv →
      (st.update_password idv up now rnds).1.passwords =
        st.passwords.take i ++
          { up with
            id := idv
            created := (st.passwords.get ⟨i, hi⟩).created
            modified := now } :: st.passwords.drop (i + 1) ∧
      (st.update_password idv up now rnds).2 = true) := by
  refine ⟨?_, ?_, ?_⟩
  · cases hu : updateFirst idv up now st.passwords with
    | none =>
      rw [PasswordStorage.update_password, hu]
      simp only [Bool.false_eq_true, false_iff]
      intro ⟨p, hp, hpid⟩
      exact ((updateFirst_none_iff idv up now st.passwords).mp hu) p hp hpid
    | some l =>
      rw [PasswordStorage.update_password, hu]
      simp only [true_iff]
      by_contra hno
      push_neg at hno
      have : updateFirst idv up now st.passwords = none :=
        (updateFirst_none_iff idv up now st.passwords).mpr hno
      rw [hu] at this
      cases this
  · intro hall
    rw [PasswordStorage.update_password,
      (updateFirst_none_iff idv up now st.passwords).mpr hall]
  · intro i hi hpre hmatch
    rw [PasswordStorage.update_password,
      updateFirst_found idv up now st.passwords i hi hpre hmatch]
    exact ⟨rfl, rfl⟩

/-- Witness for C10: updating the single stored entry by its id replaces
it with the forced id, created and modified fields and reports success. -/
theorem update_password_frame_witness :
    (sampleStorage.update_password "id1"
        ⟨"other", "newpw", "w", "u", "Work", "n", "2000-01-01", "2000-01-01"⟩
        "2024-06-01T00:00:00" sampleRnds).1.passwords =
      [⟨"id1", "newpw", "w", "u", "Work", "n", "2024-01-01T00:00:00",
        "2024-06-01T00:00:00"⟩] ∧
    (sampleStorage.update_password "id1"
        ⟨"other", "newpw", "w", "u", "Work", "n", "2000-01-01", "2000-01-01"⟩
        "2024-06-01T00:00:00" sampleRnds).2 = true := by
  have h := (update_password_frame sampleStorage "id1"
    ⟨"other", "newpw", "w", "u", "Work", "n", "2000-01-01", "2000-01-01"⟩
    "2024-06-01T00:00:00" sampleRnds).2.2 0 (by decide) (by decide) (by decide)
  exact ⟨h.1, h.2⟩

end Vault
